import Mathlib

/-!
Verification of the pycaddy run ledger (`src/pykit/ledger/ledger.py`).

The ledger is a JSON-backed mapping `identifier → uid → RunRecord`.  Python
dictionaries preserve insertion order, and the ledger's lookup and merge
semantics depend on that order, so the document is embedded as an
insertion-ordered association list (`PyDict`): assignment to an existing key
updates the value in place, assignment to a fresh key appends at the end,
exactly as CPython dictionaries behave.

Every mutating ledger operation follows a load → mutate → persist cycle
(`Ledger._edit_data`); an exception raised inside the cycle propagates through
the context manager before `_save` runs, so the on-disk document is left
unchanged.  Operations are embedded as pure state transformers that return the
resulting on-disk document together with the number of disk reads and writes
performed.

Modules `naming_strategy.py`, `run_record.py` and `status.py` are imported by
`ledger.py` but are not part of the provided sources; their definitions below
are modelled from the spec (§4.2, §4.3 and the Record description in §3) and
are marked as such in their doc comments.
-/

namespace Pycaddy

/-! ## Python dictionaries as insertion-ordered association lists -/

namespace PyDict

/-- `d[k]` lookup: first (hence unique, for genuine dicts) binding of `k`. -/
def lookup {β : Type} (k : String) : List (String × β) → Option β
  | [] => none
  | (k', v) :: rest => if k' = k then some v else lookup k rest

/-- `k in d` membership test. -/
def hasKey {β : Type} (d : List (String × β)) (k : String) : Bool :=
  (lookup k d).isSome

/-- `d[k] = v` assignment: update in place if the key exists, else append. -/
def setVal {β : Type} (k : String) (v : β) : List (String × β) → List (String × β)
  | [] => [(k, v)]
  | (k', v') :: rest => if k' = k then (k, v) :: rest else (k', v') :: setVal k v rest

/-- `list(d.keys())` in stored order. -/
def keys {β : Type} (d : List (String × β)) : List String :=
  d.map Prod.fst

/-- `d.update(p)`: fold assignment over `p` left to right. -/
def update {β : Type} (d p : List (String × β)) : List (String × β) :=
  p.foldl (fun acc kv => setVal kv.1 kv.2 acc) d

end PyDict

/-! ## Record data model -/

/-- Modelled from the spec: `status.py` is not under the provided sources.
Spec §4.3: states are `PENDING` (initial), `RUNNING`, `DONE`, `ERROR`. -/
inductive Status : Type
  | pending
  | running
  | done
  | error
deriving DecidableEq, Repr

/-- Modelled from the spec: `run_record.py` is not under the provided sources.
Spec §3: a Record carries a status, an optional integer parameter
fingerprint (`None` meaning "not tracked"), a relative path string, the
moment of the last `timestamp_status()` call, and a tag → path file map. -/
structure RunRecord : Type where
  status : Status
  param_hash : Option Int
  relpath : String
  timestamp : Option Nat
  files : List (String × String)
deriving DecidableEq, Repr

/-- Modelled from the spec: `RunRecord.timestamp_status()` re-stamps the
record's status timestamp with the current instant. -/
def RunRecord.timestampStatus (now : Nat) (r : RunRecord) : RunRecord :=
  { r with timestamp := some now }

/-- One identifier's run-set: `uid → RunRecord`. -/
abbrev RunSet := List (String × RunRecord)

/-- The whole ledger document: `identifier → uid → RunRecord`. -/
abbrev Doc := List (String × RunSet)

/-- Error taxonomy of spec §7 (the code raises `KeyError` for NotFound). -/
inductive LedgerError : Type
  | notFound (msg : String)
  | capacityExceeded (msg : String)
deriving DecidableEq, Repr

/-- Outcome of a mutating call: result, resulting on-disk document, and the
number of full-document disk reads and writes performed. -/
structure MutResult (α : Type) : Type where
  result : Except LedgerError α
  doc : Doc
  reads : Nat
  writes : Nat
deriving Repr

/-- Outcome of a query call: result and number of disk reads (never writes). -/
structure QueryResult (α : Type) : Type where
  result : Except LedgerError α
  reads : Nat
deriving Repr

/-! ## Decimal rendering and zero-padding of uids -/

/-- The character for a single decimal digit. -/
def digitChar (d : Nat) : Char :=
  Char.ofNat (d + 48)

/-- The decimal digit encoded by a character. -/
def charToDigit (c : Char) : Nat :=
  c.toNat - 48

/-- Little-endian decimal digits of `n`, computed with structural fuel so
that terms evaluate by kernel reduction; agrees with `Nat.digits 10` whenever
the fuel is at least `n`. -/
def decDigits : Nat → Nat → List Nat
  | 0, _ => []
  | f + 1, n => if n = 0 then [] else n % 10 :: decDigits f (n / 10)

/-- The decimal digit characters of `n`, most significant first
(`str(n)` for a non-negative Python int). -/
def decChars (n : Nat) : List Char :=
  if n = 0 then ['0'] else ((decDigits n n).map digitChar).reverse

/-- `str(n).zfill(width)`: the decimal string of `n`, left-padded with zeros
to at least `width` characters. -/
def paddedUid (width n : Nat) : String :=
  String.mk (List.replicate (width - (decChars n).length) '0' ++ decChars n)

/-- Numeric value of a list of decimal digit characters (most significant
first); inverse of rendering, used to prove `paddedUid` injective. -/
def valOfChars (cs : List Char) : Nat :=
  Nat.ofDigits 10 ((cs.map charToDigit).reverse)

/-- The width uids are padded to: the number of digits of `maxsize - 1`
(spec §4.2: `maxsize=1000` → 3-digit strings). -/
def nameWidth (maxsize : Nat) : Nat :=
  (decChars (maxsize - 1)).length

/-- Modelled from the spec: `naming_strategy.py` is not under the provided
sources.  Spec §4.2: the uid is the decimal string of the smallest
non-negative integer whose form zero-padded to the width of `maxsize - 1` is
not already among the existing keys; a capacity error is raised when no
integer in `[0, maxsize)` is free. -/
def counter_naming_strategy (existing : List String) (maxsize : Nat) :
    Except LedgerError String :=
  match (List.range maxsize).find?
      (fun n => !(existing.contains (paddedUid (nameWidth maxsize) n))) with
  | some n => .ok (paddedUid (nameWidth maxsize) n)
  | none => .error (.capacityExceeded "no free uid below maxsize")

/-! ## Ledger operations

Each operation is the pure content of the corresponding `Ledger` method.
`_load` yields the current on-disk document (a missing file reads as the
empty document); `_edit_data` loads, runs the mutation, and persists only if
no exception escaped the mutation. -/

/-- `data.setdefault(identifier, {})` as performed by
`Ledger._edit_uid_record_dict` on the freshly loaded document: inserts an
empty run-set at the end when the identifier is absent. -/
def setdefaultDoc (doc : Doc) (identifier : String) : Doc :=
  if PyDict.hasKey doc identifier then doc else doc ++ [(identifier, [])]

/-- The run-set seen by the body of `Ledger._edit_uid_record_dict`. -/
def runSetOf (doc : Doc) (identifier : String) : RunSet :=
  (PyDict.lookup identifier doc).getD []

/-- `Ledger.allocate`: load, `setdefault` the identifier's run-set, ask the
naming strategy for a fresh uid, insert a freshly stamped record, persist.
A capacity error escapes before `_save`, leaving the document unchanged. -/
def allocate (maxsize : Nat) (doc : Doc) (identifier : String)
    (status : Status) (relpath : String) (param_hash : Option Int)
    (now : Nat) : MutResult String :=
  let data := setdefaultDoc doc identifier
  let uid_records := runSetOf data identifier
  match counter_naming_strategy (PyDict.keys uid_records) maxsize with
  | .error e => ⟨.error e, doc, 1, 0⟩
  | .ok uid =>
      let record : RunRecord :=
        RunRecord.timestampStatus now
          { status := status, param_hash := param_hash, relpath := relpath,
            timestamp := none, files := [] }
      ⟨.ok uid, PyDict.setVal identifier (PyDict.setVal uid record uid_records) data, 1, 1⟩

/-- Truthiness of the `status` argument in `if not (status or path_dict)`:
any `Status` member is truthy. -/
def statusTruthy (status : Option Status) : Bool :=
  status.isSome

/-- Truthiness of the `path_dict` argument: an absent or empty dict is falsy. -/
def pathDictTruthy (path_dict : Option (List (String × String))) : Bool :=
  match path_dict with
  | none => false
  | some p => !p.isEmpty

/-- `Ledger.log`: early return when both arguments are falsy; otherwise load,
`setdefault` the identifier, fail with NotFound when the uid is absent
(the exception skips `_save`), else apply the status re-stamp and/or the
`files.update(path_dict)` merge and persist. -/
def log (doc : Doc) (identifier uid : String) (status : Option Status)
    (path_dict : Option (List (String × String))) (now : Nat) : MutResult Unit :=
  if !(statusTruthy status || pathDictTruthy path_dict) then
    ⟨.ok (), doc, 0, 0⟩
  else
    let data := setdefaultDoc doc identifier
    let records_dict := runSetOf data identifier
    match PyDict.lookup uid records_dict with
    | none => ⟨.error (.notFound ("No run found for identifier '" ++ identifier ++
        "' and uid '" ++ uid ++ "'")), doc, 1, 0⟩
    | some record =>
        let record := match status with
          | some st => RunRecord.timestampStatus now { record with status := st }
          | none => record
        let record := match path_dict with
          | some p => if p.isEmpty then record else
              { record with files := PyDict.update record.files p }
          | none => record
        ⟨.ok (), PyDict.setVal identifier (PyDict.setVal uid record records_dict) data, 1, 1⟩

/-- `Ledger.get_record`: unlocked read; NotFound when either key is absent. -/
def get_record (doc : Doc) (identifier uid : String) : QueryResult RunRecord :=
  match PyDict.lookup identifier doc with
  | none => ⟨.error (.notFound ("No run found for identifier '" ++ identifier ++
      "' and uid '" ++ uid ++ "'")), 1⟩
  | some records =>
      match PyDict.lookup uid records with
      | none => ⟨.error (.notFound ("No run found for identifier '" ++ identifier ++
          "' and uid '" ++ uid ++ "'")), 1⟩
      | some r => ⟨.ok r, 1⟩

/-- `Ledger.get_uid_record_dict`: unlocked read of one identifier's run-set;
NotFound when the identifier is absent. -/
def get_uid_record_dict (doc : Doc) (identifier : String) : QueryResult RunSet :=
  match PyDict.lookup identifier doc with
  | none => ⟨.error (.notFound ("No runs found for identifier '" ++ identifier ++ "'")), 1⟩
  | some records => ⟨.ok records, 1⟩

/-- `Ledger.find_by_param_hash`: `None` fingerprint returns `None` before any
disk access; otherwise delegates to `get_uid_record_dict` (which raises on a
missing identifier) and takes the first record whose `param_hash` matches. -/
def find_by_param_hash (doc : Doc) (identifier : String)
    (param_hash : Option Int) : QueryResult (Option (String × RunRecord)) :=
  match param_hash with
  | none => ⟨.ok none, 0⟩
  | some h =>
      match get_uid_record_dict doc identifier with
      | ⟨.error e, n⟩ => ⟨.error e, n⟩
      | ⟨.ok records, n⟩ =>
          ⟨.ok (records.find? (fun ur => ur.2.param_hash == some h)), n⟩

/-- A sequence of `allocate` calls against one identifier with fixed record
arguments; each entry pairs the on-disk document immediately before the call
with the call's result. -/
def allocateTrace (maxsize : Nat) (identifier : String) :
    Nat → Doc → List (Doc × Except LedgerError String)
  | 0, _ => []
  | n + 1, doc =>
      let r := allocate maxsize doc identifier .pending "." none 0
      (doc, r.result) :: allocateTrace maxsize identifier n r.doc

/-- The on-disk document after a sequence of `allocate` calls. -/
def allocateFinal (maxsize : Nat) (identifier : String) :
    Nat → Doc → Doc
  | 0, doc => doc
  | n + 1, doc =>
      allocateFinal maxsize identifier n
        (allocate maxsize doc identifier .pending "." none 0).doc

/-! ## Serialization (`Ledger._save` / `Ledger._load`)

`_save` serializes the document with the pydantic `TypeAdapter` for
`dict[str, dict[str, RunRecord]]` and `_load` validates the bytes back with
the same adapter.  The adapter itself is library code outside the provided
sources; it is modelled from spec §6, which fixes the persisted layout:
`{ identifier: { uid: RecordJSON } }` with `RecordJSON` fields `status`
(string enum value), `param_hash` (number or null), `relpath` (string), a
timestamp field (number or null) and `files` (object of string → string),
schema-validated on every load. -/

/-- A JSON value (the shapes the ledger document uses). -/
inductive Json : Type
  | null : Json
  | num : Int → Json
  | str : String → Json
  | obj : List (String × Json) → Json

/-- Modelled from the spec: the persisted string value of each status. -/
def statusKey : Status → String
  | .pending => "pending"
  | .running => "running"
  | .done => "done"
  | .error => "error"

/-- Modelled from the spec: schema validation of a status string. -/
def parseStatus (s : String) : Except String Status :=
  if s = "pending" then .ok .pending
  else if s = "running" then .ok .running
  else if s = "done" then .ok .done
  else if s = "error" then .ok .error
  else .error "invalid status value"

/-- Modelled from the spec: one Record serialized to JSON. -/
def serializeRecord (r : RunRecord) : Json :=
  .obj [("status", .str (statusKey r.status)),
        ("param_hash", match r.param_hash with | none => .null | some n => .num n),
        ("relpath", .str r.relpath),
        ("timestamp", match r.timestamp with | none => .null | some t => .num (t : Int)),
        ("files", .obj (r.files.map (fun kv => (kv.1, .str kv.2))))]

/-- Modelled from the spec: validation of the `files` object
(every field must be a string). -/
def parseFiles : List (String × Json) → Except String (List (String × String))
  | [] => .ok []
  | (k, .str v) :: rest => (parseFiles rest).map (fun fs => (k, v) :: fs)
  | _ => .error "files values must be strings"

/-- Modelled from the spec: schema validation of one RecordJSON object. -/
def validateRecord : Json → Except String RunRecord
  | .obj [("status", .str s), ("param_hash", ph), ("relpath", .str rp),
          ("timestamp", ts), ("files", .obj fs)] => do
      let status ← parseStatus s
      let param_hash ← match ph with
        | .null => .ok none
        | .num n => .ok (some n)
        | _ => .error "param_hash must be a number or null"
      let timestamp ← match ts with
        | .null => .ok (none : Option Nat)
        | .num n => if 0 ≤ n then .ok (some n.toNat) else .error "negative timestamp"
        | _ => .error "timestamp must be a number or null"
      let files ← parseFiles fs
      .ok { status := status, param_hash := param_hash, relpath := rp,
            timestamp := timestamp, files := files }
  | _ => .error "record does not match the schema"

/-- Modelled from the spec: the whole document serialized to JSON
(`Ledger._save` via the pydantic adapter). -/
def serializeDoc (d : Doc) : Json :=
  .obj (d.map (fun iv => (iv.1, Json.obj (iv.2.map (fun ur => (ur.1, serializeRecord ur.2))))))

/-- Modelled from the spec: validation of one identifier's run-set object. -/
def validateRunSet : List (String × Json) → Except String RunSet
  | [] => .ok []
  | (uid, j) :: rest => do
      let r ← validateRecord j
      let rs ← validateRunSet rest
      .ok ((uid, r) :: rs)

/-- Modelled from the spec: validation of the document's field list. -/
def validateDocFields : List (String × Json) → Except String Doc
  | [] => .ok []
  | (identifier, .obj fs) :: rest => do
      let rs ← validateRunSet fs
      let d ← validateDocFields rest
      .ok ((identifier, rs) :: d)
  | _ => .error "run-set must be an object"

/-- Modelled from the spec: schema validation of the whole document
(`Ledger._load` via the pydantic adapter). -/
def validateDoc : Json → Except String Doc
  | .obj fields => validateDocFields fields
  | _ => .error "document must be an object"

/-! ## Two processes under the shared lock (`Ledger._edit_data`)

The cross-process lock handle (`LEDGER_LOCK`, installed by
`set_global_lock`) serializes every load → mutate → persist cycle of
`_edit_data`.  Two processes repeatedly calling `allocate` against the same
identifier are modelled as a labelled transition system: a process `enter`s
a cycle by taking the free lock and loading + mutating the shared document,
and `persist`s by writing its mutated document back and releasing the lock;
a failing allocation releases the lock without persisting.  An interleaving
is any path of this system. -/

/-- One process: how many `allocate` calls it still has to issue, the
mutated document and fresh uid it holds while inside a cycle, and the uids
returned to it so far. -/
structure ProcState : Type where
  remaining : Nat
  busy : Option (Doc × String)
  uids : List String

/-- Pointwise update of the two-process family. -/
def updateProc (p : Bool → ProcState) (who : Bool) (ps : ProcState) :
    Bool → ProcState :=
  fun i => if i = who then ps else p i

/-- The shared system: who holds the lock, the on-disk document, and the two
process states (indexed by a Boolean process id). -/
structure SysState : Type where
  lock : Option Bool
  disk : Doc
  procs : Bool → ProcState

/-- One transition of the two-process system. -/
inductive LedgerStep (maxsize : Nat) (identifier : String) :
    SysState → SysState → Prop where
  | enter (s : SysState) (who : Bool) (uid : String) (d : Doc) :
      s.lock = none →
      (s.procs who).busy = none →
      0 < (s.procs who).remaining →
      (allocate maxsize s.disk identifier .pending "." none 0).result = .ok uid →
      (allocate maxsize s.disk identifier .pending "." none 0).doc = d →
      LedgerStep maxsize identifier s
        ⟨some who, s.disk,
         updateProc s.procs who
           ⟨(s.procs who).remaining - 1, some (d, uid), (s.procs who).uids⟩⟩
  | enterFail (s : SysState) (who : Bool) (e : LedgerError) :
      s.lock = none →
      (s.procs who).busy = none →
      0 < (s.procs who).remaining →
      (allocate maxsize s.disk identifier .pending "." none 0).result = .error e →
      LedgerStep maxsize identifier s
        ⟨none, s.disk,
         updateProc s.procs who
           ⟨(s.procs who).remaining - 1, none, (s.procs who).uids⟩⟩
  | persist (s : SysState) (who : Bool) (uid : String) (d : Doc) :
      s.lock = some who →
      (s.procs who).busy = some (d, uid) →
      LedgerStep maxsize identifier s
        ⟨none, d,
         updateProc s.procs who
           ⟨(s.procs who).remaining, none, (s.procs who).uids ++ [uid]⟩⟩

/-- Initial system state: empty document, free lock, `k i` allocations
pending for process `i`. -/
def initSys (k : Bool → Nat) : SysState :=
  ⟨none, [], fun i => ⟨k i, none, []⟩⟩

/-- Reachability along interleavings of the two processes. -/
def SysReachable (maxsize : Nat) (identifier : String) (s t : SysState) : Prop :=
  Relation.ReflTransGen (LedgerStep maxsize identifier) s t

/-- The uid keys currently stored on disk for the identifier. -/
def diskKeys (identifier : String) (s : SysState) : List String :=
  PyDict.keys (runSetOf s.disk identifier)

/-- The inductive invariant of the two-process system: the stored uid keys
are duplicate-free, any process inside a cycle holds the lock, its pending
uid is fresh and its pending document appends exactly that uid, and the
stored keys are a permutation of all uids returned so far. -/
def SysInv (identifier : String) (s : SysState) : Prop :=
  (diskKeys identifier s).Nodup ∧
  (∀ who : Bool, (s.procs who).busy.isSome = true → s.lock = some who) ∧
  (∀ who : Bool, ∀ d : Doc, ∀ uid : String,
    (s.procs who).busy = some (d, uid) →
      uid ∉ diskKeys identifier s ∧
      PyDict.keys (runSetOf d identifier) = diskKeys identifier s ++ [uid]) ∧
  (diskKeys identifier s).Perm ((s.procs false).uids ++ (s.procs true).uids)

/-- A concrete two-step execution used to exhibit a reachable state of the
two-process system: process `false` performs one full allocate cycle while
process `true` stays idle. -/
def witProcCount : Bool → Nat := fun _ => 1

/-- The document process `false` persists in its single cycle. -/
def witDoc1 : Doc := (allocate 3 [] "exp" Status.pending "." none 0).doc

/-- State after process `false` enters its cycle. -/
def witSys1 : SysState :=
  ⟨some false, (initSys witProcCount).disk,
   updateProc (initSys witProcCount).procs false
     ⟨((initSys witProcCount).procs false).remaining - 1, some (witDoc1, "0"),
      ((initSys witProcCount).procs false).uids⟩⟩

/-- State after process `false` persists and releases the lock. -/
def witSys2 : SysState :=
  ⟨none, witDoc1,
   updateProc witSys1.procs false
     ⟨(witSys1.procs false).remaining, none, (witSys1.procs false).uids ++ ["0"]⟩⟩

/-- A record with a given fingerprint, used in concrete examples. -/
def exRec (ph : Option Int) : RunRecord :=
  { status := .pending, param_hash := ph, relpath := ".", timestamp := some 0,
    files := [] }

/-- The resume-lookup example run-set: fingerprints `5, None, 5, 7` in
insertion order. -/
def exRunSet : RunSet :=
  [("000", exRec (some 5)), ("001", exRec none),
   ("002", exRec (some 5)), ("003", exRec (some 7))]

/-- A document holding the resume-lookup example run-set. -/
def exDoc : Doc := [("a", exRunSet)]

/-- File-attachment example: the document before any attachment. -/
def exDocF0 : Doc := [("a", [("000", exRec none)])]

/-- File-attachment example: after attaching the tag `a`. -/
def exDocF1 : Doc := (log exDocF0 "a" "000" none (some [("a", "x")]) 1).doc

/-- File-attachment example: after also attaching the tag `b`. -/
def exDocF2 : Doc := (log exDocF1 "a" "000" none (some [("b", "y")]) 2).doc

/-! ## Dictionary lemmas -/

theorem PyDict.lookup_eq_none_iff {β : Type} (k : String) (d : List (String × β)) :
    PyDict.lookup k d = none ↔ k ∉ PyDict.keys d := by
  induction d with
  | nil => simp [PyDict.lookup, PyDict.keys]
  | cons kv rest ih =>
      obtain ⟨k', v⟩ := kv
      by_cases h : k' = k
      · subst h
        simp [PyDict.lookup, PyDict.keys]
      · have hne : k ≠ k' := fun hkk => h hkk.symm
        simp only [PyDict.lookup, PyDict.keys, List.map_cons, List.mem_cons, if_neg h]
        rw [ih]
        simp only [hne, false_or]
        exact Iff.rfl

theorem PyDict.lookup_isSome_iff {β : Type} (k : String) (d : List (String × β)) :
    (PyDict.lookup k d).isSome = true ↔ k ∈ PyDict.keys d := by
  cases hl : PyDict.lookup k d with
  | none =>
      simp only [Option.isSome_none, Bool.false_eq_true, false_iff]
      exact (PyDict.lookup_eq_none_iff k d).mp hl
  | some v =>
      simp only [Option.isSome_some, true_iff]
      by_contra hk
      rw [← PyDict.lookup_eq_none_iff k d] at hk
      rw [hl] at hk
      exact Option.noConfusion hk

theorem PyDict.lookup_setVal_self {β : Type} (k : String) (v : β)
    (d : List (String × β)) :
    PyDict.lookup k (PyDict.setVal k v d) = some v := by
  induction d with
  | nil => simp [PyDict.lookup, PyDict.setVal]
  | cons kv rest ih =>
      obtain ⟨k', v'⟩ := kv
      by_cases h : k' = k <;> simp [PyDict.lookup, PyDict.setVal, h, ih]

theorem PyDict.lookup_setVal_of_ne {β : Type} {k k' : String} (v : β)
    (d : List (String × β)) (h : k ≠ k') :
    PyDict.lookup k' (PyDict.setVal k v d) = PyDict.lookup k' d := by
  induction d with
  | nil => simp [PyDict.lookup, PyDict.setVal, h]
  | cons kv rest ih =>
      obtain ⟨k'', v''⟩ := kv
      by_cases h2 : k'' = k
      · subst h2
        simp [PyDict.setVal, PyDict.lookup, h]
      · by_cases h3 : k'' = k'
        · simp [PyDict.setVal, PyDict.lookup, h2, h3, Ne.symm h]
        · simp [PyDict.setVal, PyDict.lookup, h2, h3, ih]

theorem PyDict.setVal_eq_append {β : Type} {k : String} (v : β)
    {d : List (String × β)} (h : PyDict.lookup k d = none) :
    PyDict.setVal k v d = d ++ [(k, v)] := by
  induction d with
  | nil => simp [PyDict.setVal]
  | cons kv rest ih =>
      obtain ⟨k', v'⟩ := kv
      by_cases h2 : k' = k
      · simp [PyDict.lookup, h2] at h
      · simp only [PyDict.lookup, if_pos, if_neg h2] at h
        simp [PyDict.setVal, h2, ih h]

theorem PyDict.keys_setVal_of_mem {β : Type} {k : String} (v : β)
    {d : List (String × β)} (h : k ∈ PyDict.keys d) :
    PyDict.keys (PyDict.setVal k v d) = PyDict.keys d := by
  induction d with
  | nil => simp [PyDict.keys] at h
  | cons kv rest ih =>
      obtain ⟨k', v'⟩ := kv
      by_cases h2 : k' = k
      · simp [PyDict.setVal, PyDict.keys, h2]
      · have h' : k ∈ PyDict.keys rest := by
          simp only [PyDict.keys, List.map_cons, List.mem_cons] at h
          rcases h with h | h
          · exact absurd h.symm h2
          · exact h
        simp only [PyDict.setVal, if_neg h2, PyDict.keys, List.map_cons, List.cons.injEq]
        exact ⟨trivial, ih h'⟩

theorem PyDict.lookup_append {β : Type} (k : String) (d₁ d₂ : List (String × β)) :
    PyDict.lookup k (d₁ ++ d₂) = (PyDict.lookup k d₁).or (PyDict.lookup k d₂) := by
  induction d₁ with
  | nil => simp [PyDict.lookup]
  | cons kv rest ih =>
      obtain ⟨k', v⟩ := kv
      by_cases h : k' = k <;> simp [PyDict.lookup, h, ih]

theorem PyDict.lookup_update {β : Type} (p : List (String × β)) :
    ∀ (d : List (String × β)) (k : String),
    PyDict.lookup k (PyDict.update d p) =
      (PyDict.lookup k p.reverse).or (PyDict.lookup k d) := by
  induction p with
  | nil => intro d k; simp [PyDict.update, PyDict.lookup]
  | cons kv rest ih =>
      intro d k
      obtain ⟨k', v⟩ := kv
      have step : PyDict.update d ((k', v) :: rest) =
          PyDict.update (PyDict.setVal k' v d) rest := rfl
      rw [step, ih]
      rw [List.reverse_cons, PyDict.lookup_append]
      by_cases h : k' = k
      · subst h
        rw [PyDict.lookup_setVal_self]
        have hsingle : PyDict.lookup k' [(k', v)] = some v := by
          simp [PyDict.lookup]
        rw [hsingle]
        cases hr : PyDict.lookup k' rest.reverse <;> simp [Option.or]
      · have hne : k' ≠ k := h
        rw [PyDict.lookup_setVal_of_ne v d hne]
        have hsingle : PyDict.lookup k [(k', v)] = none := by
          simp [PyDict.lookup, h]
        rw [hsingle]
        cases hr : PyDict.lookup k rest.reverse <;> simp [Option.or]

/-! ## Decimal rendering lemmas -/

theorem charToDigit_digitChar {d : Nat} (h : d < 10) :
    charToDigit (digitChar d) = d := by
  interval_cases d <;> rfl

theorem ofDigits_replicate_zero (k : Nat) :
    Nat.ofDigits 10 (List.replicate k 0) = 0 := by
  induction k with
  | zero => simp [Nat.ofDigits]
  | succ n ih => simp [List.replicate_succ, Nat.ofDigits_cons, ih]

theorem decDigits_eq_digits : ∀ (fuel n : Nat), n ≤ fuel →
    decDigits fuel n = Nat.digits 10 n := by
  intro fuel
  induction fuel with
  | zero =>
      intro n h
      interval_cases n
      simp [decDigits]
  | succ f ih =>
      intro n h
      by_cases hn : n = 0
      · subst hn
        simp [decDigits]
      · rw [decDigits, if_neg hn,
          Nat.digits_def' (by norm_num : (1 : Nat) < 10) (Nat.pos_of_ne_zero hn)]
        congr 1
        apply ih
        have hdiv : n / 10 < n := Nat.div_lt_self (Nat.pos_of_ne_zero hn) (by norm_num)
        omega

theorem map_charToDigit_decChars (n : Nat) :
    (decChars n).map charToDigit = if n = 0 then [0] else (Nat.digits 10 n).reverse := by
  by_cases h : n = 0
  · subst h
    simp [decChars]
    rfl
  · simp only [decChars, if_neg h, decDigits_eq_digits n n (le_refl n),
      List.map_reverse, List.map_map]
    congr 1
    have : ∀ d ∈ Nat.digits 10 n, (charToDigit ∘ digitChar) d = id d := by
      intro d hd
      have hlt : d < 10 := Nat.digits_lt_base (by norm_num) hd
      simp [Function.comp, charToDigit_digitChar hlt]
    rw [List.map_congr_left this, List.map_id]

theorem valOfChars_pad (k n : Nat) :
    valOfChars (List.replicate k '0' ++ decChars n) = n := by
  unfold valOfChars
  rw [List.map_append, List.map_replicate, List.reverse_append, List.reverse_replicate]
  have hzero : charToDigit '0' = 0 := rfl
  rw [hzero, map_charToDigit_decChars, Nat.ofDigits_append, ofDigits_replicate_zero,
    Nat.mul_zero, Nat.add_zero]
  by_cases h : n = 0
  · subst h
    simp [Nat.ofDigits]
  · rw [if_neg h, List.reverse_reverse, Nat.ofDigits_digits]

theorem paddedUid_inj (w : Nat) {n m : Nat} (h : paddedUid w n = paddedUid w m) :
    n = m := by
  have hdata : (List.replicate (w - (decChars n).length) '0' ++ decChars n) =
      (List.replicate (w - (decChars m).length) '0' ++ decChars m) :=
    congrArg String.data h
  have := congrArg valOfChars hdata
  rwa [valOfChars_pad, valOfChars_pad] at this

/-! ## `find?` characterizations -/

theorem find?_range'_spec (p : Nat → Bool) :
    ∀ (len s n : Nat), (List.range' s len).find? p = some n →
      s ≤ n ∧ n < s + len ∧ p n = true ∧ ∀ j, s ≤ j → j < n → p j = false := by
  intro len
  induction len with
  | zero => intro s n h; simp [List.range'] at h
  | succ l ih =>
      intro s n h
      rw [List.range'_succ] at h
      by_cases hp : p s
      · rw [List.find?_cons_of_pos _ hp] at h
        obtain rfl : s = n := Option.some.injEq .. ▸ h.symm ▸ rfl
        exact ⟨le_refl _, by omega, hp, fun j h1 h2 => absurd (lt_of_le_of_lt h1 h2) (lt_irrefl _)⟩
      · rw [List.find?_cons_of_neg _ hp] at h
        obtain ⟨h1, h2, h3, h4⟩ := ih (s + 1) n h
        refine ⟨by omega, by omega, h3, fun j hj1 hj2 => ?_⟩
        by_cases hjs : j = s
        · subst hjs; exact Bool.not_eq_true _ ▸ (by simpa using hp)
        · exact h4 j (by omega) hj2

theorem find?_range'_of_least (p : Nat → Bool) :
    ∀ (len s n : Nat), s ≤ n → n < s + len → p n = true →
      (∀ j, s ≤ j → j < n → p j = false) →
      (List.range' s len).find? p = some n := by
  intro len
  induction len with
  | zero => intro s n h1 h2; omega
  | succ l ih =>
      intro s n h1 h2 h3 h4
      rw [List.range'_succ]
      by_cases hsn : s = n
      · subst hsn
        rw [List.find?_cons_of_pos _ h3]
      · have hps : p s = false := h4 s (le_refl _) (by omega)
        rw [List.find?_cons_of_neg _ (by simp [hps])]
        exact ih (s + 1) n (by omega) (by omega) h3 (fun j hj1 hj2 => h4 j (by omega) hj2)

theorem find?_range_spec {p : Nat → Bool} {m n : Nat}
    (h : (List.range m).find? p = some n) :
    n < m ∧ p n = true ∧ ∀ j, j < n → p j = false := by
  rw [List.range_eq_range'] at h
  obtain ⟨_, h2, h3, h4⟩ := find?_range'_spec p m 0 n h
  exact ⟨by omega, h3, fun j hj => h4 j (Nat.zero_le j) hj⟩

theorem find?_range_of_least {p : Nat → Bool} {m n : Nat}
    (h1 : n < m) (h2 : p n = true) (h3 : ∀ j, j < n → p j = false) :
    (List.range m).find? p = some n := by
  rw [List.range_eq_range']
  exact find?_range'_of_least p m 0 n (Nat.zero_le n) (by omega) h2
    (fun j _ hj => h3 j hj)

theorem find?_eq_some_first {α : Type} {p : α → Bool} :
    ∀ {l : List α} {a : α}, l.find? p = some a →
      ∃ i, ∃ hi : i < l.length, l.get ⟨i, hi⟩ = a ∧ p a = true ∧
        ∀ j (hj : j < l.length), j < i → p (l.get ⟨j, hj⟩) = false := by
  intro l
  induction l with
  | nil => intro a h; simp at h
  | cons b t ih =>
      intro a h
      by_cases hp : p b
      · rw [List.find?_cons_of_pos _ hp] at h
        obtain rfl : b = a := by injection h
        exact ⟨0, by simp, rfl, hp, fun j hj hj0 => absurd hj0 (Nat.not_lt_zero j)⟩
      · rw [List.find?_cons_of_neg _ hp] at h
        obtain ⟨i, hi, hget, hpa, hbefore⟩ := ih h
        refine ⟨i + 1, by simpa using Nat.succ_lt_succ hi, hget, hpa, ?_⟩
        intro j hj hji
        cases j with
        | zero => simpa using hp
        | succ j' =>
            have hj' : j' < t.length := by simpa using Nat.lt_of_succ_lt_succ hj
            have := hbefore j' hj' (Nat.lt_of_succ_lt_succ hji)
            simpa using this

/-! ## Naming strategy lemmas -/

theorem contains_iff_mem (l : List String) (s : String) :
    l.contains s = true ↔ s ∈ l :=
  List.elem_iff

theorem naming_ok_spec {existing : List String} {ms : Nat} {uid : String}
    (h : counter_naming_strategy existing ms = .ok uid) :
    ∃ n, n < ms ∧ uid = paddedUid (nameWidth ms) n ∧
      paddedUid (nameWidth ms) n ∉ existing ∧
      ∀ m, m < n → paddedUid (nameWidth ms) m ∈ existing := by
  unfold counter_naming_strategy at h
  cases hf : (List.range ms).find?
      (fun n => !(existing.contains (paddedUid (nameWidth ms) n))) with
  | none => rw [hf] at h; exact Except.noConfusion h
  | some n =>
      rw [hf] at h
      obtain rfl : paddedUid (nameWidth ms) n = uid := by injection h
      obtain ⟨hlt, hp, hbefore⟩ := find?_range_spec hf
      refine ⟨n, hlt, rfl, ?_, ?_⟩
      · intro hmem
        rw [Bool.not_eq_true'] at hp
        rw [← contains_iff_mem] at hmem
        rw [hmem] at hp
        exact Bool.noConfusion hp
      · intro m hm
        have hpm := hbefore m hm
        rw [Bool.not_eq_false'] at hpm
        exact (contains_iff_mem existing _).mp hpm

theorem naming_error_iff (existing : List String) (ms : Nat) :
    counter_naming_strategy existing ms =
        .error (.capacityExceeded "no free uid below maxsize") ↔
      ∀ n, n < ms → paddedUid (nameWidth ms) n ∈ existing := by
  constructor
  · intro h n hn
    unfold counter_naming_strategy at h
    cases hf : (List.range ms).find?
        (fun n => !(existing.contains (paddedUid (nameWidth ms) n))) with
    | some m => rw [hf] at h; exact Except.noConfusion h
    | none =>
        have hall := List.find?_eq_none.mp hf n (List.mem_range.mpr hn)
        simp only [Bool.not_eq_true, Bool.not_eq_false'] at hall
        exact (contains_iff_mem existing _).mp hall
  · intro h
    unfold counter_naming_strategy
    have hf : (List.range ms).find?
        (fun n => !(existing.contains (paddedUid (nameWidth ms) n))) = none := by
      rw [List.find?_eq_none]
      intro n hn
      have hm := h n (List.mem_range.mp hn)
      rw [← contains_iff_mem] at hm
      rw [hm]
      simp
    rw [hf]

theorem naming_error_only_capacity {existing : List String} {ms : Nat} {e : LedgerError}
    (h : counter_naming_strategy existing ms = .error e) :
    e = .capacityExceeded "no free uid below maxsize" := by
  unfold counter_naming_strategy at h
  cases hf : (List.range ms).find?
      (fun n => !(existing.contains (paddedUid (nameWidth ms) n))) with
  | some m => rw [hf] at h; exact Except.noConfusion h
  | none => rw [hf] at h; injection h with h; exact h.symm

/-! ## `allocate` characterization -/

theorem runSetOf_setdefault (doc : Doc) (identifier : String) :
    runSetOf (setdefaultDoc doc identifier) identifier = runSetOf doc identifier := by
  unfold setdefaultDoc
  by_cases h : PyDict.hasKey doc identifier
  · rw [if_pos h]
  · rw [if_neg h]
    unfold PyDict.hasKey at h
    have hnone : PyDict.lookup identifier doc = none := by
      cases hl : PyDict.lookup identifier doc with
      | none => rfl
      | some v => rw [hl] at h; simp at h
    unfold runSetOf
    rw [PyDict.lookup_append, hnone]
    simp [PyDict.lookup]

theorem hasKey_eq_false_iff {β : Type} (d : List (String × β)) (k : String) :
    PyDict.hasKey d k = false ↔ PyDict.lookup k d = none := by
  unfold PyDict.hasKey
  cases hl : PyDict.lookup k d <;> simp

theorem allocate_error_spec {ms : Nat} {doc : Doc} {identifier : String}
    {st : Status} {rp : String} {ph : Option Int} {t : Nat} {e : LedgerError}
    (h : (allocate ms doc identifier st rp ph t).result = .error e) :
    (allocate ms doc identifier st rp ph t).doc = doc ∧
    (allocate ms doc identifier st rp ph t).writes = 0 ∧
    e = LedgerError.capacityExceeded "no free uid below maxsize" ∧
    ∀ n, n < ms → paddedUid (nameWidth ms) n ∈ PyDict.keys (runSetOf doc identifier) := by
  have hrs := runSetOf_setdefault doc identifier
  simp only [allocate] at h ⊢
  cases hname : counter_naming_strategy
      (PyDict.keys (runSetOf (setdefaultDoc doc identifier) identifier)) ms with
  | ok uid =>
      rw [hname] at h
      dsimp only at h
      exact Except.noConfusion h
  | error e' =>
      rw [hname] at h
      dsimp only at h ⊢
      have he : e' = e := by injection h
      subst he
      have hcap := naming_error_only_capacity hname
      refine ⟨rfl, rfl, hcap, ?_⟩
      have hall := (naming_error_iff
        (PyDict.keys (runSetOf (setdefaultDoc doc identifier) identifier)) ms).mp
        (hcap ▸ hname)
      rwa [hrs] at hall

theorem allocate_ok_spec {ms : Nat} {doc : Doc} {identifier : String}
    {st : Status} {rp : String} {ph : Option Int} {t : Nat} {uid : String}
    (h : (allocate ms doc identifier st rp ph t).result = .ok uid) :
    uid ∉ PyDict.keys (runSetOf doc identifier) ∧
    runSetOf (allocate ms doc identifier st rp ph t).doc identifier =
      runSetOf doc identifier ++
        [(uid, { status := st, param_hash := ph, relpath := rp,
                 timestamp := some t, files := [] })] ∧
    PyDict.keys (runSetOf (allocate ms doc identifier st rp ph t).doc identifier) =
      PyDict.keys (runSetOf doc identifier) ++ [uid] ∧
    counter_naming_strategy (PyDict.keys (runSetOf doc identifier)) ms = .ok uid := by
  have hrs := runSetOf_setdefault doc identifier
  simp only [allocate] at h ⊢
  cases hname : counter_naming_strategy
      (PyDict.keys (runSetOf (setdefaultDoc doc identifier) identifier)) ms with
  | error e' =>
      rw [hname] at h
      dsimp only at h
      exact Except.noConfusion h
  | ok u =>
      rw [hname] at h
      dsimp only at h ⊢
      have hu : u = uid := by injection h
      subst hu
      rw [hrs] at hname
      have hnotmem : u ∉ PyDict.keys (runSetOf doc identifier) := by
        obtain ⟨n, _, huid, hnm, _⟩ := naming_ok_spec hname
        rw [huid]
        exact hnm
      have hlooknone : PyDict.lookup u (runSetOf doc identifier) = none :=
        (PyDict.lookup_eq_none_iff _ _).mpr hnotmem
      have happend : PyDict.setVal u
          (RunRecord.timestampStatus t
            { status := st, param_hash := ph, relpath := rp,
              timestamp := none, files := [] })
          (runSetOf (setdefaultDoc doc identifier) identifier) =
          runSetOf doc identifier ++
            [(u, { status := st, param_hash := ph, relpath := rp,
                   timestamp := some t, files := [] })] := by
        rw [hrs]
        exact PyDict.setVal_eq_append _ hlooknone
      have hdocafter : runSetOf
          (PyDict.setVal identifier
            (PyDict.setVal u
              (RunRecord.timestampStatus t
                { status := st, param_hash := ph, relpath := rp,
                  timestamp := none, files := [] })
              (runSetOf (setdefaultDoc doc identifier) identifier))
            (setdefaultDoc doc identifier)) identifier =
          runSetOf doc identifier ++
            [(u, { status := st, param_hash := ph, relpath := rp,
                   timestamp := some t, files := [] })] := by
        unfold runSetOf
        rw [PyDict.lookup_setVal_self]
        exact happend
      refine ⟨hnotmem, hdocafter, ?_, hname⟩
      rw [hdocafter]
      unfold PyDict.keys
      rw [List.map_append]
      rfl

/-! ## `log` characterization -/

theorem log_noop (doc : Doc) (identifier uid : String) (now : Nat) :
    log doc identifier uid none none now = ⟨.ok (), doc, 0, 0⟩ := rfl

theorem log_missing_uid {doc : Doc} {identifier uid : String}
    {status : Option Status} {path_dict : Option (List (String × String))} {now : Nat}
    (harg : (statusTruthy status || pathDictTruthy path_dict) = true)
    (hmiss : PyDict.lookup uid (runSetOf doc identifier) = none) :
    log doc identifier uid status path_dict now =
      ⟨.error (.notFound ("No run found for identifier '" ++ identifier ++
        "' and uid '" ++ uid ++ "'")), doc, 1, 0⟩ := by
  have hrs := runSetOf_setdefault doc identifier
  simp only [log, harg, Bool.not_true, Bool.false_eq_true, if_false]
  rw [hrs, hmiss]

theorem update_nil {β : Type} (d : List (String × β)) :
    PyDict.update d [] = d := rfl

theorem log_files_spec {doc : Doc} {identifier uid : String} {r : RunRecord}
    (p : List (String × String)) (now : Nat)
    (hfound : PyDict.lookup uid (runSetOf doc identifier) = some r) :
    (log doc identifier uid none (some p) now).result = .ok () ∧
    PyDict.lookup uid (runSetOf (log doc identifier uid none (some p) now).doc identifier) =
      some { r with files := PyDict.update r.files p } := by
  have hrs := runSetOf_setdefault doc identifier
  by_cases hp : p.isEmpty
  · have hpnil : p = [] := List.isEmpty_iff.mp hp
    subst hpnil
    have hnoop : log doc identifier uid none (some []) now = ⟨.ok (), doc, 0, 0⟩ := rfl
    rw [hnoop]
    refine ⟨rfl, ?_⟩
    rw [hfound]
    congr 1
  · have harg : (statusTruthy (none : Option Status) || pathDictTruthy (some p)) = true := by
      simp [statusTruthy, pathDictTruthy, hp]
    simp only [log, harg, Bool.not_true, Bool.false_eq_true, if_false]
    rw [hrs, hfound]
    dsimp only
    rw [if_neg (by simp [hp])]
    constructor
    · rfl
    · unfold runSetOf
      rw [PyDict.lookup_setVal_self]
      rw [show ∀ (x : RunSet), (some x).getD [] = x from fun x => rfl]
      rw [PyDict.lookup_setVal_self]

theorem log_status_missing_of_absent_identifier {doc : Doc} {identifier : String}
    (hid : PyDict.lookup identifier doc = none) :
    runSetOf doc identifier = [] := by
  unfold runSetOf
  rw [hid]
  rfl

theorem setdefaultDoc_absent {doc : Doc} {identifier : String}
    (h : PyDict.lookup identifier doc = none) :
    setdefaultDoc doc identifier = doc ++ [(identifier, [])] ∧
    PyDict.lookup identifier (setdefaultDoc doc identifier) = some [] := by
  have hkey : PyDict.hasKey doc identifier = false := by
    unfold PyDict.hasKey
    rw [h]
    rfl
  have h1 : setdefaultDoc doc identifier = doc ++ [(identifier, [])] := by
    unfold setdefaultDoc
    rw [hkey]
    rfl
  refine ⟨h1, ?_⟩
  rw [h1, PyDict.lookup_append, h]
  simp [PyDict.lookup]

/-! ## Allocation sequences -/

theorem allocate_result_eq (ms : Nat) (doc : Doc) (id : String) (st : Status)
    (rp : String) (ph : Option Int) (t : Nat) :
    (allocate ms doc id st rp ph t).result =
      counter_naming_strategy (PyDict.keys (runSetOf doc id)) ms := by
  simp only [allocate]
  rw [runSetOf_setdefault]
  cases counter_naming_strategy (PyDict.keys (runSetOf doc id)) ms <;> rfl

theorem allocateTrace_succ (ms : Nat) (id : String) (n : Nat) (doc : Doc) :
    allocateTrace ms id (n + 1) doc =
      (doc, (allocate ms doc id .pending "." none 0).result) ::
        allocateTrace ms id n (allocate ms doc id .pending "." none 0).doc := rfl

theorem allocateFinal_succ (ms : Nat) (id : String) (n : Nat) (doc : Doc) :
    allocateFinal ms id (n + 1) doc =
      allocateFinal ms id n (allocate ms doc id .pending "." none 0).doc := rfl

theorem trace_fresh (ms : Nat) (id : String) :
    ∀ (n : Nat) (doc : Doc) (u : String),
      u ∈ PyDict.keys (runSetOf doc id) →
      u ∉ (allocateTrace ms id n doc).filterMap (fun pair => pair.2.toOption) := by
  intro n
  induction n with
  | zero => intro doc u hu; simp [allocateTrace]
  | succ m ih =>
      intro doc u hu
      rw [allocateTrace_succ, List.filterMap_cons]
      cases hr : (allocate ms doc id .pending "." none 0).result with
      | error e =>
          have hdoc := (allocate_error_spec hr).1
          simp only [Except.toOption]
          rw [hdoc]
          exact ih doc u hu
      | ok v =>
          obtain ⟨hvfresh, _, hkeys, _⟩ := allocate_ok_spec hr
          simp only [Except.toOption, List.mem_cons, not_or]
          constructor
          · intro huv
            rw [huv] at hu
            exact hvfresh hu
          · exact ih _ u (by rw [hkeys]; exact List.mem_append_left _ hu)

theorem trace_nodup (ms : Nat) (id : String) :
    ∀ (n : Nat) (doc : Doc),
      ((allocateTrace ms id n doc).filterMap (fun pair => pair.2.toOption)).Nodup := by
  intro n
  induction n with
  | zero => intro doc; simp [allocateTrace]
  | succ m ih =>
      intro doc
      rw [allocateTrace_succ, List.filterMap_cons]
      cases hr : (allocate ms doc id .pending "." none 0).result with
      | error e =>
          simp only [Except.toOption]
          exact ih _
      | ok v =>
          obtain ⟨_, _, hkeys, _⟩ := allocate_ok_spec hr
          simp only [Except.toOption, List.nodup_cons]
          refine ⟨?_, ih _⟩
          exact trace_fresh ms id m _ v
            (by rw [hkeys]; exact List.mem_append_right _ (List.mem_singleton_self v))

theorem trace_absent (ms : Nat) (id : String) :
    ∀ (n : Nat) (doc : Doc) (pair : Doc × Except LedgerError String),
      pair ∈ allocateTrace ms id n doc → ∀ u, pair.2 = .ok u →
      u ∉ PyDict.keys (runSetOf pair.1 id) := by
  intro n
  induction n with
  | zero => intro doc pair hmem; simp [allocateTrace] at hmem
  | succ m ih =>
      intro doc pair hmem u hu
      rw [allocateTrace_succ, List.mem_cons] at hmem
      rcases hmem with hmem | hmem
      · subst hmem
        dsimp only at hu
        exact (allocate_ok_spec hu).1
      · exact ih _ pair hmem u hu

theorem canon_alloc_step {ms k : Nat} {id : String} {doc : Doc}
    (hk : PyDict.keys (runSetOf doc id) =
      (List.range k).map (paddedUid (nameWidth ms)))
    (hlt : k < ms) :
    (allocate ms doc id .pending "." none 0).result =
      .ok (paddedUid (nameWidth ms) k) ∧
    PyDict.keys (runSetOf (allocate ms doc id .pending "." none 0).doc id) =
      (List.range (k + 1)).map (paddedUid (nameWidth ms)) := by
  have hname : counter_naming_strategy (PyDict.keys (runSetOf doc id)) ms =
      .ok (paddedUid (nameWidth ms) k) := by
    rw [hk]
    unfold counter_naming_strategy
    have hfind : (List.range ms).find?
        (fun n => !(((List.range k).map (paddedUid (nameWidth ms))).contains
          (paddedUid (nameWidth ms) n))) = some k := by
      apply find?_range_of_least hlt
      · rw [Bool.not_eq_true']
        by_contra hc
        rw [Bool.not_eq_false] at hc
        have hmem := (contains_iff_mem _ _).mp hc
        obtain ⟨i, hi, hpi⟩ := List.mem_map.mp hmem
        have hik : i = k := paddedUid_inj _ hpi
        rw [List.mem_range] at hi
        omega
      · intro j hj
        rw [Bool.not_eq_false']
        exact (contains_iff_mem _ _).mpr
          (List.mem_map.mpr ⟨j, List.mem_range.mpr hj, rfl⟩)
    rw [hfind]
  have hres : (allocate ms doc id .pending "." none 0).result =
      .ok (paddedUid (nameWidth ms) k) := by
    rw [allocate_result_eq, hname]
  refine ⟨hres, ?_⟩
  obtain ⟨_, _, hkeys, _⟩ := allocate_ok_spec hres
  rw [hkeys, hk, List.range_succ, List.map_append]
  rfl

theorem canon_trace (ms : Nat) (id : String) :
    ∀ (n k : Nat) (doc : Doc),
      PyDict.keys (runSetOf doc id) =
        (List.range k).map (paddedUid (nameWidth ms)) →
      k + n ≤ ms →
      (allocateTrace ms id n doc).map Prod.snd =
        (List.range' k n).map (fun i => Except.ok (paddedUid (nameWidth ms) i)) ∧
      PyDict.keys (runSetOf (allocateFinal ms id n doc) id) =
        (List.range (k + n)).map (paddedUid (nameWidth ms)) := by
  intro n
  induction n with
  | zero =>
      intro k doc hk h
      constructor
      · simp [allocateTrace]
      · simpa [allocateFinal] using hk
  | succ m ih =>
      intro k doc hk h
      obtain ⟨hres, hkeys⟩ := canon_alloc_step hk (by omega)
      obtain ⟨ih1, ih2⟩ := ih (k + 1) (allocate ms doc id .pending "." none 0).doc
        hkeys (by omega)
      constructor
      · rw [allocateTrace_succ, List.map_cons, List.range'_succ, List.map_cons]
        dsimp only
        rw [hres, ih1]
      · rw [allocateFinal_succ]
        rw [show k + (m + 1) = (k + 1) + m by omega]
        exact ih2

theorem allocateTrace_add (ms : Nat) (id : String) :
    ∀ (a b : Nat) (doc : Doc),
      allocateTrace ms id (a + b) doc =
        allocateTrace ms id a doc ++
          allocateTrace ms id b (allocateFinal ms id a doc) := by
  intro a
  induction a with
  | zero => intro b doc; simp [allocateTrace, allocateFinal]
  | succ m ih =>
      intro b doc
      rw [show m + 1 + b = (m + b) + 1 by omega]
      rw [allocateTrace_succ, ih b _, allocateTrace_succ, allocateFinal_succ]
      rfl

/-! ## Serialization round-trip -/

theorem parseStatus_statusKey (s : Status) : parseStatus (statusKey s) = .ok s := by
  cases s <;> rfl

theorem parseFiles_roundtrip (fs : List (String × String)) :
    parseFiles (fs.map (fun kv => (kv.1, Json.str kv.2))) = .ok fs := by
  induction fs with
  | nil => rfl
  | cons kv rest ih =>
      obtain ⟨k, v⟩ := kv
      simp only [List.map_cons, parseFiles, ih]
      rfl

theorem exceptOkBind {ε α β : Type} (a : α) (f : α → Except ε β) :
    ((Except.ok a : Except ε α) >>= f) = f a := rfl

theorem validateRecord_roundtrip (r : RunRecord) :
    validateRecord (serializeRecord r) = .ok r := by
  obtain ⟨st, ph, rp, ts, fs⟩ := r
  cases ph with
  | none =>
      cases ts with
      | none =>
          simp [serializeRecord, validateRecord, parseStatus_statusKey,
            parseFiles_roundtrip, Except.bind, exceptOkBind]
      | some t =>
          simp [serializeRecord, validateRecord, parseStatus_statusKey,
            parseFiles_roundtrip, Except.bind, exceptOkBind, Int.natCast_nonneg, Int.toNat_natCast]
  | some n =>
      cases ts with
      | none =>
          simp [serializeRecord, validateRecord, parseStatus_statusKey,
            parseFiles_roundtrip, Except.bind, exceptOkBind]
      | some t =>
          simp [serializeRecord, validateRecord, parseStatus_statusKey,
            parseFiles_roundtrip, Except.bind, exceptOkBind, Int.natCast_nonneg, Int.toNat_natCast]

theorem validateRunSet_roundtrip (rs : RunSet) :
    validateRunSet (rs.map (fun ur => (ur.1, serializeRecord ur.2))) = .ok rs := by
  induction rs with
  | nil => rfl
  | cons ur rest ih =>
      obtain ⟨uid, r⟩ := ur
      simp only [List.map_cons, validateRunSet, validateRecord_roundtrip, ih, Except.bind, exceptOkBind]

theorem validateDocFields_roundtrip (d : Doc) :
    validateDocFields (d.map (fun iv =>
      (iv.1, Json.obj (iv.2.map (fun ur => (ur.1, serializeRecord ur.2)))))) = .ok d := by
  induction d with
  | nil => rfl
  | cons iv rest ih =>
      obtain ⟨identifier, rs⟩ := iv
      simp only [List.map_cons, validateDocFields, validateRunSet_roundtrip, ih,
        Except.bind, exceptOkBind]

theorem validateDoc_serializeDoc (d : Doc) : validateDoc (serializeDoc d) = .ok d := by
  unfold serializeDoc validateDoc
  exact validateDocFields_roundtrip d

/-! ## Invariants of the two-process system -/

theorem updateProc_same (p : Bool → ProcState) (who : Bool) (ps : ProcState) :
    updateProc p who ps who = ps := by
  simp [updateProc]

theorem updateProc_other (p : Bool → ProcState) {who i : Bool} (ps : ProcState)
    (h : i ≠ who) : updateProc p who ps i = p i := by
  simp [updateProc, h]

theorem sysInv_init (identifier : String) (k : Bool → Nat) :
    SysInv identifier (initSys k) := by
  refine ⟨?_, ?_, ?_, ?_⟩
  · simp [diskKeys, initSys, runSetOf, PyDict.lookup, PyDict.keys]
  · intro who h
    simp [initSys] at h
  · intro who d uid h
    simp [initSys] at h
  · simp [diskKeys, initSys, runSetOf, PyDict.lookup, PyDict.keys]

theorem sysInv_step {ms : Nat} {identifier : String} {s t : SysState}
    (hinv : SysInv identifier s) (hstep : LedgerStep ms identifier s t) :
    SysInv identifier t := by
  obtain ⟨hnodup, hlockinv, hbusyinv, hperm⟩ := hinv
  cases hstep with
  | enter who uid d hlock hbusy hrem hres hdoc =>
      refine ⟨hnodup, ?_, ?_, ?_⟩
      · intro w hw
        dsimp only at hw ⊢
        by_cases hww : w = who
        · subst hww
          rfl
        · rw [updateProc_other _ _ hww] at hw
          have hl := hlockinv w hw
          rw [hlock] at hl
          exact Option.noConfusion hl
      · intro w dd u hw
        dsimp only at hw ⊢
        by_cases hww : w = who
        · subst hww
          rw [updateProc_same] at hw
          dsimp only at hw
          have hdu : d = dd ∧ uid = u := by
            injection hw with hw
            exact ⟨congrArg Prod.fst hw, congrArg Prod.snd hw⟩
          obtain ⟨rfl, rfl⟩ := hdu
          obtain ⟨hfresh, _, hkeys, _⟩ := allocate_ok_spec hres
          rw [← hdoc]
          exact ⟨hfresh, hkeys⟩
        · rw [updateProc_other _ _ hww] at hw
          have hl := hlockinv w (by rw [hw]; rfl)
          rw [hlock] at hl
          exact Option.noConfusion hl
      · dsimp only
        have hf : ∀ i : Bool, (updateProc s.procs who
            ⟨(s.procs who).remaining - 1, some (d, uid), (s.procs who).uids⟩ i).uids =
            (s.procs i).uids := by
          intro i
          by_cases hi : i = who
          · subst hi; rw [updateProc_same]
          · rw [updateProc_other _ _ hi]
        rw [hf false, hf true]
        exact hperm
  | enterFail who e hlock hbusy hrem hres =>
      refine ⟨hnodup, ?_, ?_, ?_⟩
      · intro w hw
        dsimp only at hw
        by_cases hww : w = who
        · subst hww
          rw [updateProc_same] at hw
          simp at hw
        · rw [updateProc_other _ _ hww] at hw
          have hl := hlockinv w hw
          rw [hlock] at hl
          exact Option.noConfusion hl
      · intro w dd u hw
        dsimp only at hw ⊢
        by_cases hww : w = who
        · subst hww
          rw [updateProc_same] at hw
          exact Option.noConfusion hw
        · rw [updateProc_other _ _ hww] at hw
          have hl := hlockinv w (by rw [hw]; rfl)
          rw [hlock] at hl
          exact Option.noConfusion hl
      · dsimp only
        have hf : ∀ i : Bool, (updateProc s.procs who
            ⟨(s.procs who).remaining - 1, none, (s.procs who).uids⟩ i).uids =
            (s.procs i).uids := by
          intro i
          by_cases hi : i = who
          · subst hi; rw [updateProc_same]
          · rw [updateProc_other _ _ hi]
        rw [hf false, hf true]
        exact hperm
  | persist who uid d hlock hbusy =>
      obtain ⟨hfresh, hkeys⟩ := hbusyinv who d uid hbusy
      refine ⟨?_, ?_, ?_, ?_⟩
      · show (diskKeys identifier ⟨none, d, _⟩).Nodup
        have hdisknew : diskKeys identifier ⟨none, d, updateProc s.procs who
            ⟨(s.procs who).remaining, none, (s.procs who).uids ++ [uid]⟩⟩ =
            diskKeys identifier s ++ [uid] := hkeys
        rw [hdisknew, List.nodup_append]
        refine ⟨hnodup, List.nodup_singleton uid, ?_⟩
        intro a ha hmem
        rw [List.mem_singleton] at hmem
        subst hmem
        exact hfresh ha
      · intro w hw
        dsimp only at hw
        by_cases hww : w = who
        · subst hww
          rw [updateProc_same] at hw
          simp at hw
        · rw [updateProc_other _ _ hww] at hw
          have hl := hlockinv w hw
          rw [hlock] at hl
          have hwho : who = w := by injection hl
          exact absurd hwho.symm hww
      · intro w dd u hw
        dsimp only at hw
        by_cases hww : w = who
        · subst hww
          rw [updateProc_same] at hw
          exact Option.noConfusion hw
        · rw [updateProc_other _ _ hww] at hw
          have hl := hlockinv w (by rw [hw]; rfl)
          rw [hlock] at hl
          have hwho : who = w := by injection hl
          exact absurd hwho.symm hww
      · dsimp only
        have hdisknew : diskKeys identifier ⟨none, d, updateProc s.procs who
            ⟨(s.procs who).remaining, none, (s.procs who).uids ++ [uid]⟩⟩ =
            diskKeys identifier s ++ [uid] := hkeys
        rw [hdisknew]
        cases who with
        | false =>
            rw [updateProc_same]
            rw [updateProc_other _ _ (by simp : (true : Bool) ≠ false)]
            dsimp only
            have h1 : (diskKeys identifier s ++ [uid]).Perm
                (((s.procs false).uids ++ (s.procs true).uids) ++ [uid]) :=
              hperm.append_right [uid]
            have h2 : ((((s.procs false).uids ++ (s.procs true).uids)) ++ [uid]).Perm
                (((s.procs false).uids ++ [uid]) ++ (s.procs true).uids) := by
              rw [List.append_assoc, List.append_assoc]
              exact (@List.perm_append_comm String ((s.procs true).uids) [uid]).append_left _
            exact h1.trans h2
        | true =>
            rw [updateProc_same]
            rw [updateProc_other _ _ (by simp : (false : Bool) ≠ true)]
            dsimp only
            rw [← List.append_assoc]
            exact hperm.append_right [uid]

theorem sysInv_reachable {ms : Nat} {identifier : String} {k : Bool → Nat}
    {s : SysState} (h : SysReachable ms identifier (initSys k) s) :
    SysInv identifier s := by
  induction h with
  | refl => exact sysInv_init identifier k
  | tail hsteps hstep ih => exact sysInv_step ih hstep

/-! ## Query reductions and nodup-key lookups -/

theorem keys_reverse {β : Type} (d : List (String × β)) :
    PyDict.keys d.reverse = (PyDict.keys d).reverse := by
  unfold PyDict.keys
  rw [List.map_reverse]

theorem lookup_reverse_of_nodup {β : Type} :
    ∀ (p : List (String × β)) (k : String), (PyDict.keys p).Nodup →
    PyDict.lookup k p.reverse = PyDict.lookup k p := by
  intro p
  induction p with
  | nil => intro k h; rfl
  | cons kv rest ih =>
      intro k h
      obtain ⟨k0, v0⟩ := kv
      have hk0 : k0 ∉ PyDict.keys rest := by
        simp only [PyDict.keys, List.map_cons, List.nodup_cons] at h
        exact h.1
      have hrest : (PyDict.keys rest).Nodup := by
        simp only [PyDict.keys, List.map_cons, List.nodup_cons] at h
        exact h.2
      rw [List.reverse_cons, PyDict.lookup_append]
      by_cases hkk : k0 = k
      · subst hkk
        have hnone : PyDict.lookup k0 rest = none :=
          (PyDict.lookup_eq_none_iff _ _).mpr hk0
        have hnonerev : PyDict.lookup k0 rest.reverse = none := by
          rw [PyDict.lookup_eq_none_iff, keys_reverse, List.mem_reverse]
          exact hk0
        rw [hnonerev]
        simp [PyDict.lookup, Option.or]
      · rw [ih k hrest]
        have hsingle : PyDict.lookup k [(k0, v0)] = none := by
          simp [PyDict.lookup, hkk]
        rw [hsingle]
        simp only [PyDict.lookup, if_neg hkk]
        cases PyDict.lookup k rest <;> rfl

theorem get_uid_record_dict_found {doc : Doc} {identifier : String} {rs : RunSet}
    (hid : PyDict.lookup identifier doc = some rs) :
    get_uid_record_dict doc identifier = ⟨.ok rs, 1⟩ := by
  unfold get_uid_record_dict
  rw [hid]

theorem get_uid_record_dict_missing {doc : Doc} {identifier : String}
    (hid : PyDict.lookup identifier doc = none) :
    get_uid_record_dict doc identifier =
      ⟨.error (.notFound ("No runs found for identifier '" ++ identifier ++ "'")), 1⟩ := by
  unfold get_uid_record_dict
  rw [hid]

theorem find_by_param_hash_found {doc : Doc} {identifier : String} {rs : RunSet}
    (h : Int) (hid : PyDict.lookup identifier doc = some rs) :
    find_by_param_hash doc identifier (some h) =
      ⟨.ok (rs.find? (fun ur => ur.2.param_hash == some h)), 1⟩ := by
  unfold find_by_param_hash
  rw [get_uid_record_dict_found hid]

theorem find_by_param_hash_missing {doc : Doc} {identifier : String}
    (h : Int) (hid : PyDict.lookup identifier doc = none) :
    find_by_param_hash doc identifier (some h) =
      ⟨.error (.notFound ("No runs found for identifier '" ++ identifier ++ "'")), 1⟩ := by
  unfold find_by_param_hash
  rw [get_uid_record_dict_missing hid]

/-! ## Claim theorems -/

/-- C1: every successful `allocate` returns the zero-padded decimal string of
the smallest non-negative integer whose padded form is not already a key of
the identifier's run-set, and along any sequence of `allocate` calls against
one identifier the returned uids are pairwise distinct and each is absent
from the run-set immediately before its own allocation. -/
theorem spec_c1 :
    (∀ (ms : Nat) (doc : Doc) (identifier : String) (st : Status) (rp : String)
        (ph : Option Int) (t : Nat) (uid : String),
      (allocate ms doc identifier st rp ph t).result = .ok uid →
      ∃ n, uid = paddedUid (nameWidth ms) n ∧
        paddedUid (nameWidth ms) n ∉ PyDict.keys (runSetOf doc identifier) ∧
        ∀ m, m < n → paddedUid (nameWidth ms) m ∈ PyDict.keys (runSetOf doc identifier)) ∧
    (∀ (ms : Nat) (identifier : String) (N : Nat) (doc : Doc),
      (∀ pair ∈ allocateTrace ms identifier N doc, ∀ u, pair.2 = .ok u →
        u ∉ PyDict.keys (runSetOf pair.1 identifier)) ∧
      ((allocateTrace ms identifier N doc).filterMap
        (fun pair => pair.2.toOption)).Nodup) := by
  constructor
  · intro ms doc identifier st rp ph t uid h
    rw [allocate_result_eq] at h
    obtain ⟨n, _, huid, hnm, hall⟩ := naming_ok_spec h
    exact ⟨n, huid, hnm, hall⟩
  · intro ms identifier N doc
    exact ⟨fun pair hmem u hu => trace_absent ms identifier N doc pair hmem u hu,
      trace_nodup ms identifier N doc⟩

/-- C1 witness: with `maxsize = 3` and the run-set `{"0"}`, the allocation
returns `"1"`, the padded form of the least free counter value. -/
theorem spec_c1_witness :
    ∃ n, "1" = paddedUid (nameWidth 3) n ∧
      paddedUid (nameWidth 3) n ∉ PyDict.keys (runSetOf
        [("exp", [("0", { status := .pending, param_hash := none, relpath := ".",
                          timestamp := some 0, files := [] })])] "exp") ∧
      ∀ m, m < n → paddedUid (nameWidth 3) m ∈ PyDict.keys (runSetOf
        [("exp", [("0", { status := .pending, param_hash := none, relpath := ".",
                          timestamp := some 0, files := [] })])] "exp") :=
  spec_c1.1 3
    [("exp", [("0", { status := .pending, param_hash := none, relpath := ".",
                      timestamp := some 0, files := [] })])]
    "exp" .pending "." none 0 "1" (by rfl)

/-- C2: starting from an empty document, `maxsize` allocations against one
identifier all succeed and return the padded values `0 .. maxsize-1` in
increasing numeric order, the `(maxsize+1)`-th allocation fails with the
capacity error, and an allocation raises the capacity error exactly when
every integer in `[0, maxsize)` already has its padded form in the run-set. -/
theorem spec_c2 (ms : Nat) (identifier : String) :
    ((allocateTrace ms identifier ms []).map Prod.snd =
      (List.range ms).map (fun i => Except.ok (paddedUid (nameWidth ms) i))) ∧
    ((allocateTrace ms identifier (ms + 1) []).map Prod.snd =
      ((List.range ms).map (fun i => Except.ok (paddedUid (nameWidth ms) i))) ++
        [Except.error (.capacityExceeded "no free uid below maxsize")]) ∧
    (∀ (doc : Doc) (st : Status) (rp : String) (ph : Option Int) (t : Nat),
      (∃ msg, (allocate ms doc identifier st rp ph t).result =
          .error (.capacityExceeded msg)) ↔
        ∀ n, n < ms → paddedUid (nameWidth ms) n ∈
          PyDict.keys (runSetOf doc identifier)) := by
  have hempty : PyDict.keys (runSetOf [] identifier) =
      (List.range 0).map (paddedUid (nameWidth ms)) := rfl
  obtain ⟨htrace, hfinal⟩ := canon_trace ms identifier ms 0 [] hempty (by omega)
  rw [Nat.zero_add] at hfinal
  have hpart1 : (allocateTrace ms identifier ms []).map Prod.snd =
      (List.range ms).map (fun i => Except.ok (paddedUid (nameWidth ms) i)) := by
    rw [htrace, List.range_eq_range']
  refine ⟨hpart1, ?_, ?_⟩
  · rw [allocateTrace_add ms identifier ms 1 [], List.map_append, hpart1]
    have hlast : (allocateTrace ms identifier 1 (allocateFinal ms identifier ms [])).map
        Prod.snd = [Except.error (.capacityExceeded "no free uid below maxsize")] := by
      rw [allocateTrace_succ]
      show [(allocate ms (allocateFinal ms identifier ms []) identifier
        .pending "." none 0).result] = _
      rw [allocate_result_eq]
      rw [(naming_error_iff _ ms).mpr ?_]
      intro n hn
      rw [hfinal]
      exact List.mem_map.mpr ⟨n, List.mem_range.mpr hn, rfl⟩
    rw [hlast]
  · intro doc st rp ph t
    rw [allocate_result_eq]
    constructor
    · rintro ⟨msg, hmsg⟩
      have hcap := naming_error_only_capacity hmsg
      have : counter_naming_strategy (PyDict.keys (runSetOf doc identifier)) ms =
          .error (.capacityExceeded "no free uid below maxsize") := by
        rw [hmsg]
        injection hcap with hcap'
        rw [hcap']
      exact (naming_error_iff _ ms).mp this
    · intro hall
      exact ⟨"no free uid below maxsize", (naming_error_iff _ ms).mpr hall⟩

/-- C2 witness: at `maxsize = 2` and identifier `"exp"` the statement holds
with its embedded hypotheses dischargeable. -/
theorem spec_c2_witness :
    ((allocateTrace 2 "exp" 2 []).map Prod.snd =
      (List.range 2).map (fun i => Except.ok (paddedUid (nameWidth 2) i))) ∧
    ((allocateTrace 2 "exp" 3 []).map Prod.snd =
      ((List.range 2).map (fun i => Except.ok (paddedUid (nameWidth 2) i))) ++
        [Except.error (.capacityExceeded "no free uid below maxsize")]) ∧
    (∀ (doc : Doc) (st : Status) (rp : String) (ph : Option Int) (t : Nat),
      (∃ msg, (allocate 2 doc "exp" st rp ph t).result =
          .error (.capacityExceeded msg)) ↔
        ∀ n, n < 2 → paddedUid (nameWidth 2) n ∈
          PyDict.keys (runSetOf doc "exp")) :=
  spec_c2 2 "exp"

/-- C4: when `(identifier, uid)` does not name a record, `get_record` fails
with the NotFound error, and `log` with a status argument fails with the
NotFound error without writing, leaving the on-disk document unchanged. -/
theorem spec_c4 (doc : Doc) (identifier uid : String) (st : Status) (now : Nat)
    (hmiss : PyDict.lookup uid (runSetOf doc identifier) = none) :
    (∃ msg, (get_record doc identifier uid).result = .error (.notFound msg)) ∧
    (∃ msg, (log doc identifier uid (some st) none now).result =
      .error (.notFound msg)) ∧
    (log doc identifier uid (some st) none now).doc = doc ∧
    (log doc identifier uid (some st) none now).writes = 0 := by
  have hlog := @log_missing_uid doc identifier uid (some st) none now (by rfl) hmiss
  refine ⟨?_, ⟨_, by rw [hlog]⟩, by rw [hlog], by rw [hlog]⟩
  unfold get_record
  cases hid : PyDict.lookup identifier doc with
  | none => exact ⟨_, rfl⟩
  | some rs =>
      have hrs : runSetOf doc identifier = rs := by
        unfold runSetOf
        rw [hid]
        rfl
      rw [hrs] at hmiss
      dsimp only
      rw [hmiss]
      exact ⟨_, rfl⟩

/-- C4 witness: a concrete document where the identifier is known but the uid
is not, and a lookup with an unknown identifier. -/
theorem spec_c4_witness :
    (∃ msg, (get_record [("known_id", [("000",
      { status := .pending, param_hash := none, relpath := ".",
        timestamp := some 0, files := [] })])] "known_id" "001").result =
      .error (.notFound msg)) ∧
    (∃ msg, (log [("known_id", [("000",
      { status := .pending, param_hash := none, relpath := ".",
        timestamp := some 0, files := [] })])] "known_id" "001"
        (some .running) none 7).result = .error (.notFound msg)) ∧
    (log [("known_id", [("000",
      { status := .pending, param_hash := none, relpath := ".",
        timestamp := some 0, files := [] })])] "known_id" "001"
        (some .running) none 7).doc =
      [("known_id", [("000",
        { status := .pending, param_hash := none, relpath := ".",
          timestamp := some 0, files := [] })])] ∧
    (log [("known_id", [("000",
      { status := .pending, param_hash := none, relpath := ".",
        timestamp := some 0, files := [] })])] "known_id" "001"
        (some .running) none 7).writes = 0 :=
  spec_c4 [("known_id", [("000",
    { status := .pending, param_hash := none, relpath := ".",
      timestamp := some 0, files := [] })])] "known_id" "001" .running 7 (by rfl)

/-- C3: under the installed shared lock, along every interleaving of the two
processes' allocate cycles, at most one process is inside a
load → mutate → persist cycle at any instant, and the stored run-set keys are
exactly the uids returned to the two processes, without duplicates or lost
records. -/
theorem spec_c3 (ms : Nat) (identifier : String) (k : Bool → Nat) (s : SysState)
    (h : SysReachable ms identifier (initSys k) s) :
    (¬((s.procs false).busy.isSome = true ∧ (s.procs true).busy.isSome = true)) ∧
    (diskKeys identifier s).Nodup ∧
    (diskKeys identifier s).Perm ((s.procs false).uids ++ (s.procs true).uids) := by
  obtain ⟨hnodup, hlockinv, _, hperm⟩ := sysInv_reachable h
  refine ⟨?_, hnodup, hperm⟩
  rintro ⟨hf, ht⟩
  have h1 := hlockinv false hf
  have h2 := hlockinv true ht
  rw [h1] at h2
  injection h2 with h2
  exact Bool.noConfusion h2

/-- C3 witness: the state reached after process `false` performs one complete
allocate cycle satisfies the isolation conclusions. -/
theorem spec_c3_witness :
    (¬((witSys2.procs false).busy.isSome = true ∧
        (witSys2.procs true).busy.isSome = true)) ∧
    (diskKeys "exp" witSys2).Nodup ∧
    (diskKeys "exp" witSys2).Perm
      ((witSys2.procs false).uids ++ (witSys2.procs true).uids) := by
  have hstep1 : LedgerStep 3 "exp" (initSys witProcCount) witSys1 :=
    LedgerStep.enter (initSys witProcCount) false "0" witDoc1 rfl rfl
      (by decide) (by rfl) rfl
  have hstep2 : LedgerStep 3 "exp" witSys1 witSys2 :=
    LedgerStep.persist witSys1 false "0" witDoc1 rfl rfl
  exact spec_c3 3 "exp" witProcCount witSys2
    (Relation.ReflTransGen.tail
      (Relation.ReflTransGen.tail Relation.ReflTransGen.refl hstep1) hstep2)

/-- C5: `find_by_param_hash` returns `None` immediately (without any disk
read) when the fingerprint is `None`; for a present identifier and a non-None
fingerprint it returns the first matching `(uid, Record)` pair of the
run-set in stored order, and `None` exactly when no record matches. -/
theorem spec_c5 (doc : Doc) (identifier : String) (rs : RunSet) (h : Int)
    (hid : PyDict.lookup identifier doc = some rs) :
    ((find_by_param_hash doc identifier none).result = .ok none ∧
     (find_by_param_hash doc identifier none).reads = 0) ∧
    (∀ uid r, (find_by_param_hash doc identifier (some h)).result =
        .ok (some (uid, r)) →
      r.param_hash = some h ∧
      ∃ i, ∃ hi : i < rs.length, rs.get ⟨i, hi⟩ = (uid, r) ∧
        ∀ j, ∀ hj : j < rs.length, j < i →
          (rs.get ⟨j, hj⟩).2.param_hash ≠ some h) ∧
    ((find_by_param_hash doc identifier (some h)).result = .ok none →
      ∀ ur ∈ rs, ur.2.param_hash ≠ some h) := by
  have hred := find_by_param_hash_found h hid
  refine ⟨⟨rfl, rfl⟩, ?_, ?_⟩
  · intro uid r hres
    rw [hred] at hres
    dsimp only at hres
    have hfind : rs.find? (fun ur => ur.2.param_hash == some h) = some (uid, r) := by
      injection hres
    obtain ⟨i, hi, hget, hpa, hbefore⟩ := find?_eq_some_first hfind
    constructor
    · simpa using hpa
    · refine ⟨i, hi, hget, fun j hj hji => ?_⟩
      have hpj := hbefore j hj hji
      simpa using hpj
  · intro hres ur hmem
    rw [hred] at hres
    dsimp only at hres
    have hfind : rs.find? (fun ur => ur.2.param_hash == some h) = none := by
      injection hres
    have hne := List.find?_eq_none.mp hfind ur hmem
    simpa using hne

/-- C5 witness: on the run-set with fingerprints `5, None, 5, 7`, querying
`None` returns `None` without reading, querying `5` returns the first
matching record, and querying a missing fingerprint would return `None`. -/
theorem spec_c5_witness :
    ((find_by_param_hash exDoc "a" none).result = .ok none ∧
     (find_by_param_hash exDoc "a" none).reads = 0) ∧
    (∀ uid r, (find_by_param_hash exDoc "a" (some 5)).result =
        .ok (some (uid, r)) →
      r.param_hash = some 5 ∧
      ∃ i, ∃ hi : i < exRunSet.length, exRunSet.get ⟨i, hi⟩ = (uid, r) ∧
        ∀ j, ∀ hj : j < exRunSet.length, j < i →
          (exRunSet.get ⟨j, hj⟩).2.param_hash ≠ some 5) ∧
    ((find_by_param_hash exDoc "a" (some 5)).result = .ok none →
      ∀ ur ∈ exRunSet, ur.2.param_hash ≠ some 5) :=
  spec_c5 exDoc "a" exRunSet 5 rfl

/-- C6: serializing any document with the store's save and validating it back
with the store's load yields a structurally identical document. -/
theorem spec_c6 (d : Doc) : validateDoc (serializeDoc d) = .ok d :=
  validateDoc_serializeDoc d

/-- C7: logging a `path_dict` onto an existing record merges it into the
record's `files` with last write winning per tag, leaves every other tag
untouched, and never removes an entry. -/
theorem spec_c7 (doc : Doc) (identifier uid : String) (r : RunRecord)
    (p : List (String × String)) (now : Nat)
    (hfound : PyDict.lookup uid (runSetOf doc identifier) = some r)
    (hnodup : (PyDict.keys p).Nodup) :
    (log doc identifier uid none (some p) now).result = .ok () ∧
    PyDict.lookup uid (runSetOf (log doc identifier uid none (some p) now).doc
      identifier) = some { r with files := PyDict.update r.files p } ∧
    (∀ k v, PyDict.lookup k p = some v →
      PyDict.lookup k (PyDict.update r.files p) = some v) ∧
    (∀ k, PyDict.lookup k p = none →
      PyDict.lookup k (PyDict.update r.files p) = PyDict.lookup k r.files) ∧
    (∀ k, (PyDict.lookup k r.files).isSome = true →
      (PyDict.lookup k (PyDict.update r.files p)).isSome = true) := by
  obtain ⟨hres, hrec⟩ := log_files_spec p now hfound
  have hlook : ∀ k, PyDict.lookup k (PyDict.update r.files p) =
      (PyDict.lookup k p).or (PyDict.lookup k r.files) := by
    intro k
    rw [PyDict.lookup_update, lookup_reverse_of_nodup p k hnodup]
  refine ⟨hres, hrec, ?_, ?_, ?_⟩
  · intro k v hv
    rw [hlook k, hv]
    rfl
  · intro k hnone
    rw [hlook k, hnone]
    cases PyDict.lookup k r.files <;> rfl
  · intro k hsome
    rw [hlook k]
    cases hp : PyDict.lookup k p with
    | none =>
        cases hl : PyDict.lookup k r.files with
        | none => rw [hl] at hsome; exact Bool.noConfusion hsome
        | some v => rfl
    | some v => rfl

/-- C7 witness: after attaching `{a: x}` then `{b: y}`, re-attaching `{a: z}`
succeeds and yields the files mapping `{a: z, b: y}`. -/
theorem spec_c7_witness :
    (log exDocF2 "a" "000" none (some [("a", "z")]) 3).result = .ok () ∧
    PyDict.lookup "000" (runSetOf (log exDocF2 "a" "000" none
      (some [("a", "z")]) 3).doc "a") =
      some { status := .pending, param_hash := none, relpath := ".",
             timestamp := some 0, files := [("a", "z"), ("b", "y")] } ∧
    (∀ k v, PyDict.lookup k [("a", "z")] = some v →
      PyDict.lookup k (PyDict.update [("a", "x"), ("b", "y")] [("a", "z")]) = some v) ∧
    (∀ k, PyDict.lookup k [("a", "z")] = none →
      PyDict.lookup k (PyDict.update [("a", "x"), ("b", "y")] [("a", "z")]) =
        PyDict.lookup k [("a", "x"), ("b", "y")]) ∧
    (∀ k, (PyDict.lookup k [("a", "x"), ("b", "y")]).isSome = true →
      (PyDict.lookup k (PyDict.update [("a", "x"), ("b", "y")] [("a", "z")])).isSome
        = true) :=
  spec_c7 exDocF2 "a" "000"
    { status := .pending, param_hash := none, relpath := ".",
      timestamp := some 0, files := [("a", "x"), ("b", "y")] }
    [("a", "z")] 3 (by rfl) (by decide)

/-- C8: `log` with neither a status nor a path dictionary is a no-op: it
succeeds, performs no disk read and no disk write, and returns the on-disk
document unchanged. -/
theorem spec_c8 (doc : Doc) (identifier uid : String) (now : Nat) :
    log doc identifier uid none none now = ⟨.ok (), doc, 0, 0⟩ :=
  log_noop doc identifier uid now

/-- C9: a mutating operation that raises skips the persist step: `log` on a
missing uid errors with NotFound leaving the document unchanged and writing
nothing, `setdefault` inserts the empty run-set only into the in-memory
copy, and a capacity-failed `allocate` leaves the document unchanged and
writes nothing. -/
theorem spec_c9 :
    (∀ (doc : Doc) (identifier uid : String) (st : Status) (now : Nat),
      PyDict.lookup uid (runSetOf doc identifier) = none →
      (∃ msg, (log doc identifier uid (some st) none now).result =
        .error (.notFound msg)) ∧
      (log doc identifier uid (some st) none now).doc = doc ∧
      (log doc identifier uid (some st) none now).writes = 0) ∧
    (∀ (doc : Doc) (identifier : String),
      PyDict.lookup identifier doc = none →
      setdefaultDoc doc identifier = doc ++ [(identifier, [])] ∧
      PyDict.lookup identifier (setdefaultDoc doc identifier) = some []) ∧
    (∀ (ms : Nat) (doc : Doc) (identifier : String) (st : Status) (rp : String)
        (ph : Option Int) (t : Nat) (e : LedgerError),
      (allocate ms doc identifier st rp ph t).result = .error e →
      (allocate ms doc identifier st rp ph t).doc = doc ∧
      (allocate ms doc identifier st rp ph t).writes = 0) := by
  refine ⟨?_, ?_, ?_⟩
  · intro doc identifier uid st now hmiss
    have hlog := @log_missing_uid doc identifier uid (some st) none now (by rfl) hmiss
    exact ⟨⟨_, by rw [hlog]⟩, by rw [hlog], by rw [hlog]⟩
  · intro doc identifier hid
    exact setdefaultDoc_absent hid
  · intro ms doc identifier st rp ph t e herr
    obtain ⟨hdoc, hw, _, _⟩ := allocate_error_spec herr
    exact ⟨hdoc, hw⟩

/-- C9 witness: a `log` on an empty document errors without persisting, the
in-memory `setdefault` copy holds the empty run-set, and a zero-capacity
`allocate` errors without persisting. -/
theorem spec_c9_witness :
    ((∃ msg, (log [] "a" "000" (some .running) none 5).result =
        .error (.notFound msg)) ∧
      (log [] "a" "000" (some .running) none 5).doc = [] ∧
      (log [] "a" "000" (some .running) none 5).writes = 0) ∧
    (setdefaultDoc [] "a" = [] ++ [("a", [])] ∧
      PyDict.lookup "a" (setdefaultDoc [] "a") = some []) ∧
    ((allocate 0 [] "a" .pending "." none 0).doc = [] ∧
      (allocate 0 [] "a" .pending "." none 0).writes = 0) :=
  ⟨spec_c9.1 [] "a" "000" .running 5 rfl,
   spec_c9.2.1 [] "a" rfl,
   spec_c9.2.2 0 [] "a" .pending "." none 0
     (.capacityExceeded "no free uid below maxsize") rfl⟩

/-- C10: for a non-None fingerprint and an absent identifier,
`find_by_param_hash` fails with NotFound rather than returning `None`; with a
`None` fingerprint it returns `None` without reading the document, even for
an absent identifier. -/
theorem spec_c10 :
    (∀ (doc : Doc) (identifier : String) (h : Int),
      PyDict.lookup identifier doc = none →
      ∃ msg, (find_by_param_hash doc identifier (some h)).result =
        .error (.notFound msg)) ∧
    (∀ (doc : Doc) (identifier : String),
      (find_by_param_hash doc identifier none).result = .ok none ∧
      (find_by_param_hash doc identifier none).reads = 0) := by
  constructor
  · intro doc identifier h hid
    rw [find_by_param_hash_missing h hid]
    exact ⟨_, rfl⟩
  · intro doc identifier
    exact ⟨rfl, rfl⟩

/-- C10 witness: on the empty document, a fingerprint query fails with
NotFound while a `None` query returns `None` without reading. -/
theorem spec_c10_witness :
    (∃ msg, (find_by_param_hash [] "b" (some 5)).result =
      .error (.notFound msg)) ∧
    ((find_by_param_hash [] "b" none).result = .ok none ∧
      (find_by_param_hash [] "b" none).reads = 0) :=
  ⟨spec_c10.1 [] "b" 5 rfl, spec_c10.2 [] "b"⟩

end Pycaddy
